import Mathlib

/-!
Verification development for the bsky feed-curation core
(src/src/services/bluesky.ts and src/src/services/feedFactory.ts).

The TypeScript services are shallowly embedded as pure Lean functions:
JavaScript numbers holding epoch milliseconds become Int, engagement
counters become Nat, fractional scores (the 1.5 coefficient, day
fractions) become Rat, `x || 0` defaulting on possibly-missing fields
becomes Option.getD 0, JavaScript Set/Map state becomes lists and
functions with the same membership/lookup semantics, and every remote
or stateful effect (search results, LLM responses, Date.now, thrown
exceptions) is passed in explicitly as an oracle argument.
-/

namespace Bsky

/-- Author record as used by the services: only `followersCount` is read
by the scoring code (`post.author?.followersCount || 0`), and it may be
missing before enrichment. -/
structure Author where
  followersCount : Option Nat
deriving DecidableEq

/-- Candidate post as consumed by the curation core.  `indexedAt` is the
epoch-millisecond value of `new Date(post.indexedAt).getTime()`.
`embedImages` is the length of `post.embed?.images` (0 when the embed or
the image list is absent) and `embedVideo` is the truthiness of
`post.embed?.video`, which is how the code tests for media. -/
structure Post where
  uri : String
  likeCount : Option Nat
  replyCount : Option Nat
  repostCount : Option Nat
  author : Option Author
  indexedAt : Int
  embedImages : Nat
  embedVideo : Bool
deriving DecidableEq

/-- 16 hours in milliseconds. -/
def sixteenHoursMs : Int := 16 * 60 * 60 * 1000

/-- 3 days in milliseconds. -/
def threeDaysMs : Int := 3 * 24 * 60 * 60 * 1000

/-- bluesky.ts `filterPostsByAge` (lines 116-125): keep the posts whose
`indexedAt` lies between `now - 3 days` and `now - 16 hours`, both
bounds inclusive (`postTime <= sixteenHoursAgo && postTime >= threeDaysAgo`). -/
def filterPostsByAge (now : Int) (posts : List Post) : List Post :=
  let sixteenHoursAgo := now - sixteenHoursMs
  let threeDaysAgo := now - threeDaysMs
  posts.filter (fun post => post.indexedAt ≤ sixteenHoursAgo ∧ threeDaysAgo ≤ post.indexedAt)

end Bsky

namespace Bsky

/-- Parsed shape of the LLM relevance response after `JSON.parse`
succeeded: either a JSON array of integers or some non-array value. -/
inductive GeminiValue where
  | arr (ids : List Int)
  | nonArray
deriving DecidableEq

/-- Outcome of the LLM relevance call: `failure` covers an unreachable
service and a `JSON.parse` exception (both land in the catch block of
`filterPostsWithGemini`); `parsed v` is a successfully parsed body. -/
inductive GeminiOutcome where
  | failure
  | parsed (v : GeminiValue)
deriving DecidableEq

/-- bluesky.ts `filterPostsWithGemini` (lines 170-242), with the remote
call abstracted into the `outcome` oracle.  Pools of at most 20 posts
skip the filter; a caught failure or a non-array parse returns the pool
unchanged; an array response keeps the ids satisfying
`id >= 0 && id < posts.length` and maps them to `posts[id]`
(`.filter(Boolean)` is the final `filterMap`). -/
def filterPostsWithGemini (posts : List Post) (outcome : GeminiOutcome) : List Post :=
  if posts.length ≤ 20 then posts
  else
    match outcome with
    | .failure => posts
    | .parsed .nonArray => posts
    | .parsed (.arr selectedIds) =>
        (selectedIds.filter (fun id => 0 ≤ id ∧ id < (posts.length : Int))).filterMap
          (fun id => posts.get? id.toNat)

/-- `post.likeCount || 0`. -/
def likeCountOf (post : Post) : Nat := post.likeCount.getD 0

/-- `post.replyCount || 0`. -/
def replyCountOf (post : Post) : Nat := post.replyCount.getD 0

/-- `post.repostCount || 0`. -/
def repostCountOf (post : Post) : Nat := post.repostCount.getD 0

/-- `post.author?.followersCount || 0`. -/
def followersCountOf (post : Post) : Nat :=
  (post.author.bind Author.followersCount).getD 0

/-- Base engagement score `likeCount + replyCount * 2 + repostCount * 1.5`,
shared verbatim by the scorer in `generateCustomFeed` (bluesky.ts line 673)
and by `calculateQualityScores` (feedFactory.ts line 322). -/
def engagementScoreOf (likeCount replyCount repostCount : Nat) : ℚ :=
  (likeCount : ℚ) + (replyCount : ℚ) * 2 + (repostCount : ℚ) * (3 / 2)

/-- Quality bonus of the scorer in `generateCustomFeed` (bluesky.ts lines
676-697).  The sequence of `qualityBonus = ...; qualityBonus += ...`
mutations is rendered as a sum; every value is a whole number, so the
bonus is computed in Nat and cast to Rat where it is added to the score. -/
def qualityBonusOf (likeCount replyCount followersCount : Nat) : Nat :=
  if 3 ≤ replyCount ∧ 5 ≤ likeCount then
    50 + (if 100 ≤ followersCount then 25 else if 10 ≤ followersCount then 10 else 0)
  else if 2 ≤ replyCount ∧ 3 ≤ likeCount then
    20 + (if 50 ≤ followersCount then 10 else 0)
  else if 2 ≤ likeCount then 5
  else 0

/-- The three score fields the scorer in `generateCustomFeed` attaches to
each post (bluesky.ts lines 699-704). -/
structure ScoredValues where
  engagementScore : ℚ
  qualityBonus : ℚ
  totalScore : ℚ
deriving DecidableEq

/-- Scorer body of `generateCustomFeed` (bluesky.ts lines 666-705):
engagement score plus tiered quality bonus. -/
def scorePost (post : Post) : ScoredValues :=
  let engagementScore := engagementScoreOf (likeCountOf post) (replyCountOf post) (repostCountOf post)
  let qualityBonus : ℚ := (qualityBonusOf (likeCountOf post) (replyCountOf post) (followersCountOf post) : ℚ)
  { engagementScore := engagementScore
    qualityBonus := qualityBonus
    totalScore := engagementScore + qualityBonus }

end Bsky

namespace FeedFactory

open Bsky

/-- Author quality bonus of `calculateQualityScores` (feedFactory.ts lines
324-329): unconditional, unlike the follower add-ons of the bluesky.ts
scorer. -/
def authorBonusOf (followers : Nat) : Nat :=
  if 100 ≤ followers then 25 else if 10 ≤ followers then 10 else 0

/-- High-engagement bonus of `calculateQualityScores` (feedFactory.ts lines
331-336). -/
def highEngagementBonusOf (likes replies : Nat) : Nat :=
  if 3 ≤ replies ∧ 5 ≤ likes then 50
  else if 2 ≤ replies ∧ 3 ≤ likes then 20
  else 0

/-- Media bonus of `calculateQualityScores` (feedFactory.ts lines 338-341):
`post.embed?.images?.length || post.embed?.video`. -/
def mediaBonusOf (post : Post) : Nat :=
  if post.embedImages ≠ 0 ∨ post.embedVideo then 15 else 0

/-- Recency bonus of `calculateQualityScores` (feedFactory.ts lines
343-350): `ageDays` is the exact (floating-point in JS, rational here)
age in days. -/
def recencyBonusOf (now : Int) (post : Post) : Nat :=
  let ageDays : ℚ := ((now : ℚ) - (post.indexedAt : ℚ)) / (1000 * 60 * 60 * 24)
  if 7 / 10 ≤ ageDays ∧ ageDays ≤ 3 then 20
  else if ageDays ≤ 7 then 10
  else 0

/-- Per-post score of feedFactory.ts `calculateQualityScores` (lines
312-356): the sequence of `score += ...` mutations rendered as a sum. -/
def calcQualityScore (now : Int) (post : Post) : ℚ :=
  engagementScoreOf (likeCountOf post) (replyCountOf post) (repostCountOf post)
    + (authorBonusOf (followersCountOf post) : ℚ)
    + (highEngagementBonusOf (likeCountOf post) (replyCountOf post) : ℚ)
    + (mediaBonusOf post : ℚ)
    + (recencyBonusOf now post : ℚ)

/-- The `Map<uri, score>` built by `calculateQualityScores`, read back
through `Map.get(uri) || 0`: the entry of a uri is the score of the last
pool post carrying it (later `Map.set` calls overwrite earlier ones) and
a missing uri reads as 0. -/
def calculateQualityScores (now : Int) (posts : List Post) : String → ℚ :=
  fun uri =>
    match (posts.filter (fun p => p.uri = uri)).getLast? with
    | some p => calcQualityScore now p
    | none => 0

/-- The refill cooldown `MIN_REFILL_INTERVAL` (30 seconds). -/
def minRefillInterval : Int := 30 * 1000

/-- The pool TTL `POOL_CACHE_TTL` (10 minutes). -/
def poolCacheTTL : Int := 10 * 60 * 1000

/-- The fields of a `CustomFeed` that the pagination operations read or
write.  `shownPostUris` models the `Set<string>` by membership of a
list; `cachedPostPool` is `none` when the field is null/undefined (the
`!feed.cachedPostPool` checks); `postQualityScores` is the quality-score
map already composed with the `|| 0` read default. -/
structure FeedState where
  shownPostUris : List String
  cachedPostPool : Option (List Post)
  poolCacheTimestamp : Int
  postQualityScores : String → ℚ

/-- The `unviewedPosts` count computed inside `ensurePostPoolFilled`
(feedFactory.ts lines 272-273): pool entries not yet in the feed-local
shown set, or 0 when the pool is missing. -/
def unviewedCount (feed : FeedState) : Nat :=
  match feed.cachedPostPool with
  | some pool => (pool.filter (fun post => ¬ feed.shownPostUris.contains post.uri)).length
  | none => 0

/-- feedFactory.ts `ensurePostPoolFilled` (lines 259-310).  `now` is the
sampled `Date.now()`; `fetched` is the outcome of the
`generateCustomFeed` call (`none` models a thrown error).  Returns the
updated feed and whether `generateCustomFeed` was invoked.  On a throw
the timestamp is still advanced ("Update timestamp anyway to prevent
immediate retry"). -/
def ensurePostPoolFilled (now : Int) (fetched : Option (List Post)) (feed : FeedState) :
    FeedState × Bool :=
  if now - feed.poolCacheTimestamp < minRefillInterval then (feed, false)
  else
    if feed.cachedPostPool.isNone ∨ unviewedCount feed < 10 ∨ poolCacheTTL < now - feed.poolCacheTimestamp then
      match fetched with
      | some posts =>
          ({ feed with
              cachedPostPool := some posts
              poolCacheTimestamp := now
              postQualityScores := calculateQualityScores now posts }, true)
      | none => ({ feed with poolCacheTimestamp := now }, true)
    else (feed, false)

/-- Stable insertion of a post into a list already sorted by strictly
higher score first. -/
def insertScoreDesc (score : String → ℚ) (p : Post) : List Post → List Post
  | [] => [p]
  | q :: qs =>
      if score q.uri < score p.uri then p :: q :: qs
      else q :: insertScoreDesc score p qs

/-- The `unviewedPosts.sort((a, b) => scoreB - scoreA)` step of
`getTopQualityUnviewedPosts`: a stable sort placing higher scores first,
realized as an insertion sort so that it evaluates by kernel reduction. -/
def sortByScoreDesc (score : String → ℚ) : List Post → List Post
  | [] => []
  | p :: ps => insertScoreDesc score p (sortByScoreDesc score ps)

/-- feedFactory.ts `getTopQualityUnviewedPosts` (lines 358-377): filter
the cached pool to posts not in the feed-local shown set, sort by score
descending, take the top `limit`. -/
def getTopQualityUnviewedPosts (feed : FeedState) (limit : Nat) : List Post :=
  match feed.cachedPostPool with
  | none => []
  | some pool =>
      let unviewedPosts := pool.filter (fun post => ¬ feed.shownPostUris.contains post.uri)
      let sortedPosts := sortByScoreDesc feed.postQualityScores unviewedPosts
      sortedPosts.take limit

/-- State of the `FeedFactoryService` singleton: the `feeds` map (a
`Map<string, CustomFeed>`, modelled as its lookup function) and the
`globalShownPosts` set. -/
structure FactoryState where
  feeds : String → Option FeedState
  globalShownPosts : List String

/-- feedFactory.ts `getFeedPaginated` (lines 211-257): refill check,
selection, then marking every selected uri in both the feed-local
shown-set and the global shown-set.  A missing feed throws
("Feed not found"), modelled as a `none` result with unchanged state.
The final per-post transformation (lines 234-249) keeps `post.uri`
unchanged, so the returned list is the selected posts themselves.  The
`hasMore`-dependent cursor string is not modelled; no claim mentions it. -/
def getFeedPaginated (now : Int) (fetched : Option (List Post)) (st : FactoryState)
    (feedId : String) (limit : Nat) : Option (List Post) × FactoryState :=
  match st.feeds feedId with
  | none => (none, st)
  | some feed =>
      let feed1 := (ensurePostPoolFilled now fetched feed).1
      let selected := getTopQualityUnviewedPosts feed1 limit
      let selectedUris := selected.map (fun p => p.uri)
      let feed2 := { feed1 with shownPostUris := feed1.shownPostUris ++ selectedUris }
      (some selected,
        { feeds := fun id => if id = feedId then some feed2 else st.feeds id
          globalShownPosts := st.globalShownPosts ++ selectedUris })

/-- feedFactory.ts `deleteFeed` (lines 396-403): release the feed's shown
uris from the global set, then delete the map entry; returns whether the
entry existed. -/
def deleteFeed (st : FactoryState) (feedId : String) : FactoryState × Bool :=
  match st.feeds feedId with
  | none => ({ st with feeds := fun id => if id = feedId then none else st.feeds id }, false)
  | some feed =>
      ({ feeds := fun id => if id = feedId then none else st.feeds id
         globalShownPosts :=
           st.globalShownPosts.filter (fun uri => ¬ feed.shownPostUris.contains uri) }, true)

/-- feedFactory.ts `resetFeedProgress` (lines 406-416): release the feed's
shown uris from the global set and clear the feed-local shown set. -/
def resetFeedProgress (st : FactoryState) (feedId : String) : FactoryState × Bool :=
  match st.feeds feedId with
  | none => (st, false)
  | some feed =>
      ({ feeds := fun id =>
            if id = feedId then some { feed with shownPostUris := [] } else st.feeds id
         globalShownPosts :=
           st.globalShownPosts.filter (fun uri => ¬ feed.shownPostUris.contains uri) }, true)

/-- One `getFeedPaginated` call of a session, with its oracle inputs:
the sampled clock, the outcome of a possible refill fetch, the target
feed and the page size. -/
structure PaginateCall where
  now : Int
  fetched : Option (List Post)
  feedId : String
  limit : Nat

/-- Run a sequence of `getFeedPaginated` calls, keeping the final state. -/
def applyCalls (st : FactoryState) (calls : List PaginateCall) : FactoryState :=
  calls.foldl (fun s c => (getFeedPaginated c.now c.fetched s c.feedId c.limit).2) st

/-- The uris of an optional returned page (`none` = the call threw). -/
def urisOf (res : Option (List Post)) : List String :=
  (res.getD []).map (fun p => p.uri)

end FeedFactory

namespace Bsky

/-- Entry of the `networkGraph` map built by `getFollowersOfFollowers`
(bluesky.ts lines 961-1035): `{ weight, via, timestamp }`. -/
structure GraphEntry where
  weight : Nat
  via : String
  timestamp : Int
deriving DecidableEq

/-- One follower observation inside the crawl (bluesky.ts lines
1009-1027): skip first-degree follows and the identity itself, otherwise
set the follower's entry to the incremented weight and the via name of
the currently processed followed account. -/
def addFollowerEdge (userId : String) (followingList : List String) (viaName : String)
    (now : Int) (g : String → Option GraphEntry) (followerDid : String) :
    String → Option GraphEntry :=
  if followingList.contains followerDid then g
  else if followerDid = userId then g
  else
    let weight :=
      match g followerDid with
      | some existing => existing.weight + 1
      | none => 1
    fun x => if x = followerDid then some { weight := weight, via := viaName, timestamp := now } else g x

/-- Processing of one followed account inside the crawl: fold its
follower list into the graph, all observations carrying that account's
resolved via name (`profile?.displayName || profile?.handle ||
followedUserId`, abstracted as `viaNameOf`). -/
def processFollowedAccount (userId : String) (followingList : List String)
    (viaNameOf : String → String) (followersOf : String → List String) (now : Int)
    (g : String → Option GraphEntry) (followedUserId : String) : String → Option GraphEntry :=
  (followersOf followedUserId).foldl
    (addFollowerEdge userId followingList (viaNameOf followedUserId) now) g

/-- The followed accounts actually crawled: the batched loop
`for (i = 0; i < Math.min(followingList.length, 30); i += 3)` visits
exactly the first 30 entries, and `processedUsers` skips duplicates, so
the crawl processes the first occurrence of each account among the
first 30 entries, in list order. -/
def processedFollowing (followingList : List String) : List String :=
  (followingList.take 30).eraseDups

/-- The network-graph construction of `getFollowersOfFollowers`
(bluesky.ts lines 960-1038), sequentialized in `followingList` order
(the reference code awaits batches of 3 concurrently; any interleaving
gives some processing order of which this is the canonical one).
`followersOf` is the (cache-or-fetch) follower list per account, with a
failed fetch already degraded to `[]`. -/
def buildNetworkGraph (userId : String) (followingList : List String)
    (viaNameOf : String → String) (followersOf : String → List String) (now : Int) :
    String → Option GraphEntry :=
  (processedFollowing followingList).foldl
    (processFollowedAccount userId followingList viaNameOf followersOf now)
    (fun _ => none)

/-- The followed accounts (in processed order) whose follower list
contains a given follower: the contributors to that follower's edge. -/
def contributorsFor (followingList : List String) (followersOf : String → List String)
    (followerDid : String) : List String :=
  (processedFollowing followingList).filter (fun u => (followersOf u).contains followerDid)

/-- Weight read off an optional graph entry (`existing ? existing.weight : 0`). -/
def entryWeight : Option GraphEntry → Nat
  | some existing => existing.weight
  | none => 0

end Bsky

namespace Bsky

/-- The in-memory `cache` object of bluesky.ts (lines 744-756): following
list, network graph, per-user follower lists and user profiles
(handle, displayName), each map modelled as an association list. -/
structure NetworkCache where
  followingList : Option (List String × Int)
  networkGraph : List (String × GraphEntry)
  userFollowers : List (String × (List String × Int))
  userProfiles : List (String × (String × String))
deriving DecidableEq

/-- The full cache state touched by `clearPersistentCache`: the durable
localStorage entry for the identity (content opaque), the in-memory
`cache` object, and the module-level network posts cache with its
timestamp. -/
structure CacheWorld where
  persistedEntry : Option Unit
  cache : NetworkCache
  networkPostsCache : List Post
  networkCacheTimestamp : Int
deriving DecidableEq

/-- bluesky.ts `clearPersistentCache` (lines 812-830).  The whole body
sits in one `try` block with `localStorage.removeItem` as its first
statement; `removeItemThrows` models that call throwing
(StorageUnavailable), in which case the catch block only logs and none
of the clearing statements run.  The function itself never throws. -/
def clearPersistentCache (removeItemThrows : Bool) (w : CacheWorld) : CacheWorld :=
  if removeItemThrows then w
  else
    { persistedEntry := none
      cache :=
        { followingList := none
          networkGraph := []
          userFollowers := []
          userProfiles := [] }
      networkPostsCache := []
      networkCacheTimestamp := 0 }

end Bsky

namespace Bsky

/-- Decimal digit characters of a natural number, most significant
first: the rendering of the template literal piece in
`` `network_${startIndex + limit}` ``. -/
def natChars (n : Nat) : List Char :=
  if h : n < 10 then [Char.ofNat (48 + n)]
  else natChars (n / 10) ++ [Char.ofNat (48 + n % 10)]
decreasing_by
  exact Nat.div_lt_self (by omega) (by omega)

/-- The cursor string `network_k` produced by
`getFollowersOfFollowersFeed`. -/
def mkNetworkCursor (n : Nat) : String :=
  String.mk ("network_".toList ++ natChars n)

/-- JavaScript `parseInt(s) || 0` on the digit-prefix fragment relevant
here: the value of the leading run of decimal digits, and 0 when there
is none (`parseInt` returns `NaN` there, which `|| 0` maps to 0). -/
def jsParseIntOr0 (cs : List Char) : Nat :=
  (cs.takeWhile Char.isDigit).foldl (fun acc c => acc * 10 + (c.toNat - 48)) 0

/-- JavaScript `String.prototype.split` with a single-character
separator. -/
def splitChar (sep : Char) : List Char → List (List Char)
  | [] => [[]]
  | c :: cs =>
      if c = sep then [] :: splitChar sep cs
      else
        match splitChar sep cs with
        | [] => [[c]]
        | h :: t => (c :: h) :: t

/-- Start index decoded from the pagination cursor (bluesky.ts lines
1167-1170): 0 without a cursor or without the `network_` marker,
otherwise `parseInt(cursor.split("_")[1]) || 0`. -/
def networkStartIndex (cursor : Option String) : Nat :=
  match cursor with
  | none => 0
  | some s =>
      if ("network_".toList).isPrefixOf s.toList then
        jsParseIntOr0 (((splitChar '_' s.toList).get? 1).getD [])
      else 0

/-- The cursor-pagination tail of `getFollowersOfFollowersFeed`
(bluesky.ts lines 1166-1186), on an already-built posts cache (the
rebuild branch is not taken when the cached pool is unchanged, which is
the premise of the claim about this code): slice
`[startIndex, startIndex + limit)` of the cache and a `network_`
cursor exactly when more entries remain. -/
def networkFeedPage (networkPostsCache : List Post) (cursor : Option String) (limit : Nat) :
    List Post × Option String :=
  let startIndex := networkStartIndex cursor
  let paginatedPosts := (networkPostsCache.drop startIndex).take limit
  let hasMore := startIndex + limit < networkPostsCache.length
  (paginatedPosts, if hasMore then some (mkNetworkCursor (startIndex + limit)) else none)

end Bsky

namespace Examples

open Bsky FeedFactory

/-- The post of the scoring scenario: 5 likes, 3 replies, 0 reposts, no
follower data on the author. -/
def scenarioPost : Post :=
  { uri := "at://scenario"
    likeCount := some 5
    replyCount := some 3
    repostCount := some 0
    author := some { followersCount := none }
    indexedAt := 0
    embedImages := 0
    embedVideo := false }

/-- A zero-engagement post with a given uri. -/
def plainPost (uri : String) : Post :=
  { uri := uri
    likeCount := some 0
    replyCount := some 0
    repostCount := some 0
    author := none
    indexedAt := 0
    embedImages := 0
    embedVideo := false }

/-- A 21-post candidate pool: more than 20 posts, so the relevance filter
does not short-circuit. -/
def bigPool : List Post := List.replicate 21 (plainPost "u")

/-- A feed whose cached pool holds the single post `shared`, with nothing
shown yet and a pool timestamp equal to the session clock. -/
def sharedFeed : FeedState :=
  { shownPostUris := []
    cachedPostPool := some [plainPost "shared"]
    poolCacheTimestamp := 0
    postQualityScores := fun _ => 0 }

/-- A factory session holding two feeds `A` and `B` whose candidate pools
both contain the post uri `shared`. -/
def twoFeedState : FactoryState :=
  { feeds := fun id => if id = "A" ∨ id = "B" then some sharedFeed else none
    globalShownPosts := [] }

/-- A feed whose pool is missing and whose last refill is far in the
past, so the next `ensurePostPoolFilled` call refills. -/
def staleFeed : FeedState :=
  { shownPostUris := []
    cachedPostPool := none
    poolCacheTimestamp := -100000
    postQualityScores := fun _ => 0 }

/-- Follower lists of the crawl scenario: `A` is followed by `{X, Y}` and
`B` by `{Y, Z}`. -/
def scenarioFollowersOf : String → List String := fun u =>
  if u = "A" then ["X", "Y"] else if u = "B" then ["Y", "Z"] else []

/-- A cache world with one network-graph edge in memory and a durable
entry present. -/
def nonemptyCacheWorld : CacheWorld :=
  { persistedEntry := some ()
    cache :=
      { followingList := none
        networkGraph := [("X", { weight := 1, via := "A", timestamp := 0 })]
        userFollowers := []
        userProfiles := [] }
    networkPostsCache := []
    networkCacheTimestamp := 0 }

end Examples

namespace Bsky

/-- C5: a post survives `filterPostsByAge` exactly when it came from the
input and its age `now - indexedAt` lies between 16 hours and 3 days,
both bounds inclusive; every post outside this window is discarded. -/
theorem filterPostsByAge_window (now : Int) (posts : List Post) (p : Post) :
    p ∈ filterPostsByAge now posts ↔
      p ∈ posts ∧ sixteenHoursMs ≤ now - p.indexedAt ∧ now - p.indexedAt ≤ threeDaysMs := by
  unfold filterPostsByAge
  simp only [List.mem_filter, decide_eq_true_eq]
  constructor
  · rintro ⟨h1, h2, h3⟩
    exact ⟨h1, by omega, by omega⟩
  · rintro ⟨h1, h2, h3⟩
    exact ⟨h1, by omega, by omega⟩

/-- C6: on a post with 5 likes, 3 replies, 0 reposts and no follower
data, the scorer of `generateCustomFeed` yields engagement score 11
(5 + 2·3 + 1.5·0), quality bonus 50 (high-engagement tier, no author
add-on), and total score 61. -/
theorem scorePost_scenario :
    scorePost Examples.scenarioPost =
      { engagementScore := 11, qualityBonus := 50, totalScore := 61 } := by
  unfold scorePost Examples.scenarioPost
  norm_num [engagementScoreOf, qualityBonusOf, likeCountOf, replyCountOf, repostCountOf,
    followersCountOf, ScoredValues.mk.injEq]

/-- C3 counterexample: on a 21-post pool and the parsed array `[0, 50]`
(50 is out of range), `filterPostsWithGemini` does not return the
unfiltered pool — it drops the out-of-range index and returns the single
post at index 0. -/
theorem filterPostsWithGemini_out_of_range :
    filterPostsWithGemini Examples.bigPool (.parsed (.arr [0, 50])) = [Examples.plainPost "u"] ∧
    Examples.bigPool.length = 21 ∧
    filterPostsWithGemini Examples.bigPool (.parsed (.arr [0, 50])) ≠ Examples.bigPool := by
  decide

/-- C3 amended: a response that is not valid JSON or not an array leaves
the candidate pool unchanged, and an array response behaves exactly as
if its out-of-range indices were removed (they are dropped one by one,
not treated as a failure). -/
theorem filterPostsWithGemini_failure_noop (posts : List Post) (outcome : GeminiOutcome)
    (h : outcome = .failure ∨ outcome = .parsed .nonArray) :
    filterPostsWithGemini posts outcome = posts ∧
    ∀ ids : List Int,
      filterPostsWithGemini posts (.parsed (.arr ids)) =
        filterPostsWithGemini posts
          (.parsed (.arr (ids.filter (fun id => 0 ≤ id ∧ id < (posts.length : Int))))) := by
  constructor
  · rcases h with h | h <;> subst h <;> unfold filterPostsWithGemini <;> split <;> rfl
  · intro ids
    unfold filterPostsWithGemini
    split
    · rfl
    · dsimp only
      rw [List.filter_filter]
      simp

/-- C3 amended, witness: the empty pool with a failed call is returned
unchanged. -/
theorem filterPostsWithGemini_failure_noop_witness :
    filterPostsWithGemini [] .failure = [] :=
  (filterPostsWithGemini_failure_noop [] .failure (Or.inl rfl)).1

/-- C9: when `localStorage.removeItem` throws inside
`clearPersistentCache`, the catch block skips every clearing statement:
the durable entry and the in-memory network graph are still present
after the call returns (the claim demands they be empty). -/
theorem clearPersistentCache_throw_leaves_state :
    clearPersistentCache true Examples.nonemptyCacheWorld = Examples.nonemptyCacheWorld ∧
    Examples.nonemptyCacheWorld.cache.networkGraph ≠ [] ∧
    Examples.nonemptyCacheWorld.persistedEntry ≠ none := by
  decide

end Bsky

namespace FeedFactory

open Bsky

/-- Helper: whenever `ensurePostPoolFilled` reports that a refill was
attempted, it has stamped the pool timestamp with the current clock
(both on success and on the caught fetch error). -/
theorem ensurePostPoolFilled_stamps (now : Int) (fetched : Option (List Post)) (feed : FeedState) :
    (ensurePostPoolFilled now fetched feed).2 = true →
    (ensurePostPoolFilled now fetched feed).1.poolCacheTimestamp = now := by
  unfold ensurePostPoolFilled
  by_cases h1 : now - feed.poolCacheTimestamp < minRefillInterval
  · rw [if_pos h1]
    simp
  · rw [if_neg h1]
    by_cases h2 : feed.cachedPostPool.isNone = true ∨ unviewedCount feed < 10 ∨
        poolCacheTTL < now - feed.poolCacheTimestamp
    · rw [if_pos h2]
      cases fetched <;> intro _ <;> rfl
    · rw [if_neg h2]
      simp

/-- C4: if `ensurePostPoolFilled` performs or attempts a refill at time
`t`, then a call at any time `t'` within the following 30 seconds issues
no refetch and leaves the feed state untouched. -/
theorem refill_cooldown (feed : FeedState) (t t' : Int) (f1 f2 : Option (List Post))
    (hfetch : (ensurePostPoolFilled t f1 feed).2 = true)
    (hafter : t ≤ t') (hwin : t' - t < minRefillInterval) :
    (ensurePostPoolFilled t' f2 (ensurePostPoolFilled t f1 feed).1).2 = false ∧
    (ensurePostPoolFilled t' f2 (ensurePostPoolFilled t f1 feed).1).1 =
      (ensurePostPoolFilled t f1 feed).1 := by
  have hts := ensurePostPoolFilled_stamps t f1 feed hfetch
  set feed1 := (ensurePostPoolFilled t f1 feed).1 with hfeed1
  have hcond : t' - feed1.poolCacheTimestamp < minRefillInterval := by
    rw [hts]
    exact hwin
  unfold ensurePostPoolFilled
  rw [if_pos hcond]
  exact ⟨rfl, rfl⟩

/-- C4 witness: a stale feed is refilled at t = 0, and a second call 10
seconds later issues no refetch. -/
theorem refill_cooldown_witness :
    (ensurePostPoolFilled 0 (some []) Examples.staleFeed).2 = true ∧
    (ensurePostPoolFilled 10000 none (ensurePostPoolFilled 0 (some []) Examples.staleFeed).1).2 =
      false :=
  ⟨by decide,
   (refill_cooldown Examples.staleFeed 0 10000 (some []) none (by decide) (by decide)
      (by decide)).1⟩

/-- Helper: the base engagement score is monotone in the like count. -/
theorem engagementScoreOf_mono (l1 l2 r p : Nat) (h : l1 ≤ l2) :
    engagementScoreOf l1 r p ≤ engagementScoreOf l2 r p := by
  unfold engagementScoreOf
  have hc : (l1 : ℚ) ≤ (l2 : ℚ) := by exact_mod_cast h
  linarith

/-- Helper: the tiered quality bonus of the bluesky.ts scorer is monotone
in the like count across every tier transition. -/
theorem qualityBonusOf_mono (l1 l2 replies followers : Nat) (h : l1 ≤ l2) :
    Bsky.qualityBonusOf l1 replies followers ≤ Bsky.qualityBonusOf l2 replies followers := by
  unfold Bsky.qualityBonusOf
  split_ifs <;> omega

/-- Helper: the high-engagement bonus of `calculateQualityScores` is
monotone in the like count. -/
theorem highEngagementBonusOf_mono (l1 l2 replies : Nat) (h : l1 ≤ l2) :
    highEngagementBonusOf l1 replies ≤ highEngagementBonusOf l2 replies := by
  unfold highEngagementBonusOf
  split_ifs <;> omega

/-- C7: increasing the like count while holding every other field fixed
never decreases either the total score of the `generateCustomFeed`
scorer (engagement plus quality bonus) or the pool quality score of
`calculateQualityScores`. -/
theorem score_monotone_in_likes (p : Post) (now : Int) (l1 l2 : Nat) (h : l1 ≤ l2) :
    (scorePost { p with likeCount := some l1 }).totalScore ≤
      (scorePost { p with likeCount := some l2 }).totalScore ∧
    calcQualityScore now { p with likeCount := some l1 } ≤
      calcQualityScore now { p with likeCount := some l2 } := by
  have hLike : ∀ l : Nat, likeCountOf { p with likeCount := some l } = l := fun _ => rfl
  have hReply : ∀ l : Nat, replyCountOf { p with likeCount := some l } = replyCountOf p :=
    fun _ => rfl
  have hRepost : ∀ l : Nat, repostCountOf { p with likeCount := some l } = repostCountOf p :=
    fun _ => rfl
  have hFol : ∀ l : Nat, followersCountOf { p with likeCount := some l } = followersCountOf p :=
    fun _ => rfl
  have hMedia : ∀ l : Nat, mediaBonusOf { p with likeCount := some l } = mediaBonusOf p :=
    fun _ => rfl
  have hRec : ∀ l : Nat,
      recencyBonusOf now { p with likeCount := some l } = recencyBonusOf now p :=
    fun _ => rfl
  have e := engagementScoreOf_mono l1 l2 (replyCountOf p) (repostCountOf p) h
  constructor
  · unfold scorePost
    dsimp only
    rw [hLike, hLike, hReply, hReply, hRepost, hRepost, hFol, hFol]
    have q := qualityBonusOf_mono l1 l2 (replyCountOf p) (followersCountOf p) h
    have q' : ((Bsky.qualityBonusOf l1 (replyCountOf p) (followersCountOf p) : Nat) : ℚ) ≤
        ((Bsky.qualityBonusOf l2 (replyCountOf p) (followersCountOf p) : Nat) : ℚ) := by
      exact_mod_cast q
    linarith
  · unfold calcQualityScore
    rw [hLike, hLike, hReply, hReply, hRepost, hRepost, hFol, hFol, hMedia, hMedia, hRec, hRec]
    have hb := highEngagementBonusOf_mono l1 l2 (replyCountOf p) h
    have hb' : ((highEngagementBonusOf l1 (replyCountOf p) : Nat) : ℚ) ≤
        ((highEngagementBonusOf l2 (replyCountOf p) : Nat) : ℚ) := by
      exact_mod_cast hb
    linarith

/-- C7 witness: raising a zero-engagement post from 0 to 1 like does not
decrease either score. -/
theorem score_monotone_in_likes_witness :
    (scorePost { Examples.plainPost "w" with likeCount := some 0 }).totalScore ≤
      (scorePost { Examples.plainPost "w" with likeCount := some 1 }).totalScore ∧
    calcQualityScore 0 { Examples.plainPost "w" with likeCount := some 0 } ≤
      calcQualityScore 0 { Examples.plainPost "w" with likeCount := some 1 } :=
  score_monotone_in_likes (Examples.plainPost "w") 0 0 1 (by decide)

/-- Helper: membership through the descending insertion. -/
theorem mem_insertScoreDesc (score : String → ℚ) (p q : Post) (l : List Post) :
    q ∈ insertScoreDesc score p l ↔ q = p ∨ q ∈ l := by
  induction l with
  | nil => simp [insertScoreDesc]
  | cons x xs ih =>
    unfold insertScoreDesc
    by_cases hc : score x.uri < score p.uri
    · rw [if_pos hc]
      simp [List.mem_cons]
    · rw [if_neg hc]
      simp only [List.mem_cons, ih]
      tauto

/-- Helper: the descending sort preserves membership. -/
theorem mem_sortByScoreDesc (score : String → ℚ) (l : List Post) (q : Post) :
    q ∈ sortByScoreDesc score l ↔ q ∈ l := by
  induction l with
  | nil => rfl
  | cons x xs ih =>
    unfold sortByScoreDesc
    rw [mem_insertScoreDesc, ih, List.mem_cons]

/-- Helper: the refill check never touches the feed-local shown set. -/
theorem ensure_shown_eq (now : Int) (fetched : Option (List Post)) (feed : FeedState) :
    ((ensurePostPoolFilled now fetched feed).1).shownPostUris = feed.shownPostUris := by
  unfold ensurePostPoolFilled
  by_cases h1 : now - feed.poolCacheTimestamp < minRefillInterval
  · rw [if_pos h1]
  · rw [if_neg h1]
    by_cases h2 : feed.cachedPostPool.isNone = true ∨ unviewedCount feed < 10 ∨
        poolCacheTTL < now - feed.poolCacheTimestamp
    · rw [if_pos h2]
      cases fetched <;> rfl
    · rw [if_neg h2]

/-- Helper: every post selected by `getTopQualityUnviewedPosts` has a uri
outside the feed-local shown set. -/
theorem getTop_not_shown (feed : FeedState) (limit : Nat) (p : Post)
    (hp : p ∈ getTopQualityUnviewedPosts feed limit) : p.uri ∉ feed.shownPostUris := by
  unfold getTopQualityUnviewedPosts at hp
  cases hpool : feed.cachedPostPool with
  | none =>
    rw [hpool] at hp
    cases hp
  | some pool =>
    rw [hpool] at hp
    dsimp only at hp
    have hp1 : p ∈ sortByScoreDesc feed.postQualityScores
        (pool.filter fun post => ¬ feed.shownPostUris.contains post.uri) :=
      List.take_subset _ _ hp
    rw [mem_sortByScoreDesc] at hp1
    have h2 := (List.mem_filter.mp hp1).2
    simp only [decide_not, Bool.not_eq_true', decide_eq_false_iff_not] at h2
    intro hmem
    exact h2 (List.elem_iff.mpr hmem)

/-- Helper: a pagination step keeps every feed present and never removes
a uri from any feed-local shown set. -/
theorem getFeedPaginated_feeds_mono (now : Int) (fetched : Option (List Post))
    (st : FactoryState) (feedId : String) (limit : Nat) (id : String) (feed : FeedState)
    (hid : st.feeds id = some feed) :
    ∃ feed', ((getFeedPaginated now fetched st feedId limit).2).feeds id = some feed' ∧
      ∀ u ∈ feed.shownPostUris, u ∈ feed'.shownPostUris := by
  unfold getFeedPaginated
  cases hfd : st.feeds feedId with
  | none => exact ⟨feed, hid, fun u hu => hu⟩
  | some fd =>
    dsimp only
    by_cases hidf : id = feedId
    · subst hidf
      rw [hid] at hfd
      cases hfd
      refine ⟨_, by rw [if_pos rfl], ?_⟩
      intro u hu
      rw [List.mem_append, ensure_shown_eq]
      exact Or.inl hu
    · exact ⟨feed, by rw [if_neg hidf]; exact hid, fun u hu => hu⟩

/-- Helper: a run of pagination calls keeps every feed present and only
grows its shown set. -/
theorem applyCalls_feeds_mono (st : FactoryState) (calls : List PaginateCall) (id : String)
    (feed : FeedState) (hid : st.feeds id = some feed) :
    ∃ feed', ((applyCalls st calls).feeds id = some feed') ∧
      ∀ u ∈ feed.shownPostUris, u ∈ feed'.shownPostUris := by
  induction calls generalizing st feed with
  | nil => exact ⟨feed, hid, fun u hu => hu⟩
  | cons c cs ih =>
    obtain ⟨feed1, hf1, hmono1⟩ :=
      getFeedPaginated_feeds_mono c.now c.fetched st c.feedId c.limit id feed hid
    obtain ⟨feed2, hf2, hmono2⟩ := ih _ _ hf1
    exact ⟨feed2, hf2, fun u hu => hmono2 u (hmono1 u hu)⟩

/-- Helper: every uri returned by a pagination step lands in the target
feed's shown set of the successor state. -/
theorem getFeedPaginated_out_shown (now : Int) (fetched : Option (List Post))
    (st : FactoryState) (feedId : String) (limit : Nat) (u : String)
    (hu : u ∈ urisOf (getFeedPaginated now fetched st feedId limit).1) :
    ∃ feed', ((getFeedPaginated now fetched st feedId limit).2).feeds feedId = some feed' ∧
      u ∈ feed'.shownPostUris := by
  unfold getFeedPaginated at hu ⊢
  cases hfd : st.feeds feedId with
  | none =>
    rw [hfd] at hu
    cases hu
  | some fd =>
    rw [hfd] at hu
    dsimp only at hu ⊢
    refine ⟨_, by rw [if_pos rfl], ?_⟩
    rw [List.mem_append]
    exact Or.inr hu

/-- Helper: a pagination step never returns a uri already in the target
feed's shown set. -/
theorem getFeedPaginated_out_fresh (now : Int) (fetched : Option (List Post))
    (st : FactoryState) (feedId : String) (limit : Nat) (u : String) (feed : FeedState)
    (hfd : st.feeds feedId = some feed)
    (hu : u ∈ urisOf (getFeedPaginated now fetched st feedId limit).1) :
    u ∉ feed.shownPostUris := by
  unfold getFeedPaginated at hu
  rw [hfd] at hu
  dsimp only at hu
  unfold urisOf at hu
  simp only [Option.getD_some, List.mem_map] at hu
  obtain ⟨p, hp, hpu⟩ := hu
  have := getTop_not_shown _ limit p hp
  rw [ensure_shown_eq] at this
  rw [← hpu]
  exact this

/-- C8: per-feed deduplication across a session.  If a `getFeedPaginated`
call on a feed returns a uri, then no later `getFeedPaginated` call on
the same feed — with any number of other pagination calls in between —
returns that uri again. -/
theorem paginate_no_repeat (st : FactoryState) (c1 c2 : PaginateCall)
    (mid : List PaginateCall) (u : String) (hsame : c1.feedId = c2.feedId)
    (h1 : u ∈ urisOf (getFeedPaginated c1.now c1.fetched st c1.feedId c1.limit).1) :
    u ∉ urisOf (getFeedPaginated c2.now c2.fetched
        (applyCalls (getFeedPaginated c1.now c1.fetched st c1.feedId c1.limit).2 mid)
        c2.feedId c2.limit).1 := by
  intro h2
  obtain ⟨feed1, hf1, hu1⟩ :=
    getFeedPaginated_out_shown c1.now c1.fetched st c1.feedId c1.limit u h1
  obtain ⟨feed2, hf2, hmono⟩ :=
    applyCalls_feeds_mono (getFeedPaginated c1.now c1.fetched st c1.feedId c1.limit).2 mid
      c1.feedId feed1 hf1
  nth_rewrite 2 [hsame] at hf2
  exact getFeedPaginated_out_fresh c2.now c2.fetched _ c2.feedId c2.limit u feed2 hf2 h2
    (hmono u hu1)

/-- C8 witness: with feed `A` holding the single pooled post `shared`,
the first page returns `shared` and an immediately following page on the
same feed does not. -/
theorem paginate_no_repeat_witness :
    "shared" ∈ urisOf (getFeedPaginated 0 none Examples.twoFeedState "A" 10).1 ∧
    "shared" ∉ urisOf (getFeedPaginated 0 none
        (applyCalls (getFeedPaginated 0 none Examples.twoFeedState "A" 10).2 []) "A" 10).1 :=
  ⟨by decide,
   paginate_no_repeat Examples.twoFeedState ⟨0, none, "A", 10⟩ ⟨0, none, "A", 10⟩ [] "shared"
     rfl (by decide)⟩

/-- C1: violation of cross-feed global exclusivity.  With two feeds `A`
and `B` whose pools share the post uri `shared`, paginating `A` returns
`shared` and records it in `globalShownPosts`, yet paginating `B`
immediately afterwards — with no `deleteFeed` or `resetFeedProgress` in
between — returns `shared` again: selection filters only on the
feed-local shown set and never consults the global one. -/
theorem global_exclusivity_violation :
    "shared" ∈ urisOf (getFeedPaginated 0 none Examples.twoFeedState "A" 10).1 ∧
    "shared" ∈ ((getFeedPaginated 0 none Examples.twoFeedState "A" 10).2).globalShownPosts ∧
    "shared" ∈ urisOf (getFeedPaginated 0 none
        (getFeedPaginated 0 none Examples.twoFeedState "A" 10).2 "B" 10).1 := by
  decide

end FeedFactory

namespace Bsky

/-- Helper: the character of a decimal digit reads back as its value. -/
theorem toNat_digitChar (d : Nat) (h : d < 10) : (Char.ofNat (48 + d)).toNat = 48 + d := by
  interval_cases d <;> decide

/-- Helper: the character of a decimal digit is a digit character. -/
theorem isDigit_digitChar (d : Nat) (h : d < 10) : (Char.ofNat (48 + d)).isDigit = true := by
  interval_cases d <;> decide

/-- Helper: every character of the decimal rendering is a digit. -/
theorem natChars_all_digits (n : Nat) : ∀ c ∈ natChars n, c.isDigit = true := by
  induction n using Nat.strong_induction_on with
  | _ n ih =>
    unfold natChars
    split
    · intro c hc
      simp only [List.mem_singleton] at hc
      subst hc
      exact isDigit_digitChar n (by assumption)
    · intro c hc
      rw [List.mem_append] at hc
      rcases hc with hc | hc
      · exact ih (n / 10) (Nat.div_lt_self (by omega) (by omega)) c hc
      · simp only [List.mem_singleton] at hc
        subst hc
        exact isDigit_digitChar (n % 10) (Nat.mod_lt _ (by omega))

/-- Helper: folding the digit characters of `n` back into a number
recovers `n`. -/
theorem natChars_val (n : Nat) :
    (natChars n).foldl (fun acc c => acc * 10 + (c.toNat - 48)) 0 = n := by
  induction n using Nat.strong_induction_on with
  | _ n ih =>
    unfold natChars
    split
    · rename_i h
      simp only [List.foldl_cons, List.foldl_nil, toNat_digitChar n h]
      omega
    · rename_i h
      rw [List.foldl_append]
      rw [ih (n / 10) (Nat.div_lt_self (by omega) (by omega))]
      simp only [List.foldl_cons, List.foldl_nil,
        toNat_digitChar (n % 10) (Nat.mod_lt _ (by omega))]
      omega

/-- Helper: `takeWhile` is the identity on a list all of whose elements
satisfy the predicate. -/
theorem takeWhile_of_all (p : Char → Bool) (l : List Char) (h : ∀ c ∈ l, p c = true) :
    l.takeWhile p = l := by
  induction l with
  | nil => rfl
  | cons c cs ih =>
    rw [List.takeWhile_cons, h c (List.mem_cons_self c cs), if_pos rfl]
    rw [ih (fun x hx => h x (List.mem_cons_of_mem c hx))]

/-- Helper: the JavaScript integer parse inverts the decimal rendering. -/
theorem jsParseIntOr0_natChars (n : Nat) : jsParseIntOr0 (natChars n) = n := by
  unfold jsParseIntOr0
  rw [takeWhile_of_all _ _ (natChars_all_digits n), natChars_val]

/-- Helper: splitting a separator-free list yields that single list. -/
theorem splitChar_no_sep (sep : Char) (l : List Char) (h : ∀ c ∈ l, c ≠ sep) :
    splitChar sep l = [l] := by
  induction l with
  | nil => rfl
  | cons c cs ih =>
    unfold splitChar
    rw [if_neg (h c (List.mem_cons_self c cs))]
    rw [ih (fun x hx => h x (List.mem_cons_of_mem c hx))]

/-- Helper: splitting around a single separator occurrence yields the two
surrounding fragments. -/
theorem splitChar_marker (sep : Char) (l1 l2 : List Char) (h1 : sep ∉ l1)
    (h2 : ∀ c ∈ l2, c ≠ sep) : splitChar sep (l1 ++ sep :: l2) = [l1, l2] := by
  induction l1 with
  | nil =>
    simp only [List.nil_append]
    unfold splitChar
    rw [if_pos rfl, splitChar_no_sep sep l2 h2]
  | cons c cs ih =>
    simp only [List.cons_append]
    unfold splitChar
    have hc : c ≠ sep := fun he => h1 (he ▸ List.mem_cons_self c cs)
    rw [if_neg hc, ih (fun hm => h1 (List.mem_cons_of_mem c hm))]

/-- Helper: a digit character is never the underscore separator. -/
theorem digit_ne_underscore (c : Char) (h : c.isDigit = true) : c ≠ '_' := by
  intro he
  subst he
  exact absurd h (by decide)

/-- Helper: decoding the canonical `network_k` cursor recovers `k`. -/
theorem networkStartIndex_mk (k : Nat) : networkStartIndex (some (mkNetworkCursor k)) = k := by
  unfold networkStartIndex mkNetworkCursor
  dsimp only
  have htl : (String.mk ("network_".toList ++ natChars k)).toList =
      "network_".toList ++ natChars k := rfl
  rw [htl]
  rw [if_pos (List.isPrefixOf_iff_prefix.mpr (List.prefix_append _ _))]
  have hform : "network_".toList ++ natChars k = "network".toList ++ '_' :: natChars k := rfl
  have hsplit : splitChar '_' ("network_".toList ++ natChars k) =
      ["network".toList, natChars k] := by
    rw [hform]
    exact splitChar_marker '_' "network".toList (natChars k) (by decide)
      (fun c hc => digit_ne_underscore c (natChars_all_digits k c hc))
  rw [hsplit]
  simpa using jsParseIntOr0_natChars k

/-- C10: with an unchanged cached pool, a `getFollowersOfFollowersFeed`
call with cursor `network_k` returns exactly the pool slice
`[k, k + limit)`, and hands back the cursor `network_(k + limit)` if and
only if `k + limit` is strictly below the pool length — the cursor is
absent exactly when the pool is exhausted, so successive pages are
disjoint index ranges. -/
theorem networkFeedPage_slice (networkPostsCache : List Post) (k limit : Nat) :
    (networkFeedPage networkPostsCache (some (mkNetworkCursor k)) limit).1 =
      (networkPostsCache.drop k).take limit ∧
    ((networkFeedPage networkPostsCache (some (mkNetworkCursor k)) limit).2 =
        some (mkNetworkCursor (k + limit)) ↔ k + limit < networkPostsCache.length) ∧
    ((networkFeedPage networkPostsCache (some (mkNetworkCursor k)) limit).2 = none ↔
        networkPostsCache.length ≤ k + limit) := by
  unfold networkFeedPage
  rw [networkStartIndex_mk]
  refine ⟨rfl, ?_, ?_⟩
  · by_cases hm : k + limit < networkPostsCache.length
    · simp [hm]
    · simp only [if_neg hm]
      constructor
      · intro he
        cases he
      · intro hlt
        exact absurd hlt hm
  · by_cases hm : k + limit < networkPostsCache.length
    · simp only [if_pos hm]
      constructor
      · intro he
        cases he
      · intro hle
        omega
    · simp only [if_neg hm]
      constructor
      · intro _
        omega
      · intro _
        trivial

/-- Helper: an observation of a different follower leaves an entry
untouched. -/
theorem addFollowerEdge_ne (userId : String) (fl : List String) (vn : String) (now : Int)
    (g : String → Option GraphEntry) (x f : String) (hx : x ≠ f) :
    addFollowerEdge userId fl vn now g x f = g f := by
  unfold addFollowerEdge
  by_cases h1 : fl.contains x
  · rw [if_pos h1]
  · rw [if_neg h1]
    by_cases h2 : x = userId
    · rw [if_pos h2]
    · rw [if_neg h2]
      exact if_neg (fun he => hx he.symm)

/-- Helper: an observation of a follower that passes both skip guards
bumps its weight by one and overwrites its via name. -/
theorem addFollowerEdge_self (userId : String) (fl : List String) (vn : String) (now : Int)
    (g : String → Option GraphEntry) (f : String) (hnf : fl.contains f = false)
    (hne : f ≠ userId) :
    addFollowerEdge userId fl vn now g f f =
      some { weight := entryWeight (g f) + 1, via := vn, timestamp := now } := by
  unfold addFollowerEdge
  rw [if_neg (by intro h; rw [hnf] at h; exact Bool.noConfusion h), if_neg hne]
  cases hgf : g f with
  | none => simp [entryWeight]
  | some e => simp [entryWeight]

/-- Helper: folding a follower list that does not mention `f` leaves the
entry of `f` untouched. -/
theorem foldFollowers_not_mem (userId : String) (fl : List String) (vn : String) (now : Int)
    (f : String) :
    ∀ (followers : List String) (g : String → Option GraphEntry), f ∉ followers →
      followers.foldl (addFollowerEdge userId fl vn now) g f = g f := by
  intro followers
  induction followers with
  | nil => intro g _; rfl
  | cons x xs ih =>
    intro g hf
    rw [List.foldl_cons]
    rw [ih _ (fun hm => hf (List.mem_cons_of_mem x hm))]
    exact addFollowerEdge_ne userId fl vn now g x f
      (fun he => hf (by rw [← he]; exact List.mem_cons_self x xs))

/-- Helper: folding a duplicate-free follower list that mentions `f`
(and `f` passes the skip guards) bumps the weight of `f` by exactly one
and stamps the current via name. -/
theorem foldFollowers_mem_once (userId : String) (fl : List String) (vn : String) (now : Int)
    (f : String) (hnf : fl.contains f = false) (hne : f ≠ userId) :
    ∀ (followers : List String) (g : String → Option GraphEntry),
      followers.Nodup → f ∈ followers →
      followers.foldl (addFollowerEdge userId fl vn now) g f =
        some { weight := entryWeight (g f) + 1, via := vn, timestamp := now } := by
  intro followers
  induction followers with
  | nil => intro g _ hf; cases hf
  | cons x xs ih =>
    intro g hnd hf
    rw [List.foldl_cons]
    rcases List.nodup_cons.mp hnd with ⟨hx, hnd'⟩
    by_cases hxf : x = f
    · subst hxf
      rw [foldFollowers_not_mem userId fl vn now x xs _ hx]
      exact addFollowerEdge_self userId fl vn now g x hnf hne
    · have hf' : f ∈ xs := by
        rcases List.mem_cons.mp hf with h | h
        · exact absurd h.symm hxf
        · exact h
      rw [ih _ hnd' hf']
      rw [addFollowerEdge_ne userId fl vn now g x f hxf]

/-- Helper: a cons list with the last-element view of its `getLast?`. -/
theorem getLast?_cons_ne_none (b : String) (t : List String) : (b :: t).getLast? ≠ none := by
  intro h
  exact absurd (List.getLast?_eq_none_iff.mp h) (List.cons_ne_nil b t)

/-- Helper: the entry of `f` after folding a list of followed accounts:
untouched if none of them has `f` among its followers, otherwise weight
increased by the number of contributing accounts with the via name of
the last one processed. -/
theorem foldProcessed_entry (userId : String) (fl : List String) (viaNameOf : String → String)
    (followersOf : String → List String) (now : Int) (f : String)
    (hnf : fl.contains f = false) (hne : f ≠ userId) :
    ∀ (L : List String) (g : String → Option GraphEntry),
      (∀ u ∈ L, (followersOf u).Nodup) →
      L.foldl (processFollowedAccount userId fl viaNameOf followersOf now) g f =
        match (L.filter (fun u => (followersOf u).contains f)).getLast? with
        | none => g f
        | some v =>
            some (GraphEntry.mk
              (entryWeight (g f) + (L.filter (fun u => (followersOf u).contains f)).length)
              (viaNameOf v) now) := by
  intro L
  induction L with
  | nil => intro g _; rfl
  | cons u us ih =>
    intro g hnd
    rw [List.foldl_cons]
    by_cases hcu : (followersOf u).contains f = true
    · have hg' : processFollowedAccount userId fl viaNameOf followersOf now g u f =
          some { weight := entryWeight (g f) + 1, via := viaNameOf u, timestamp := now } := by
        unfold processFollowedAccount
        exact foldFollowers_mem_once userId fl (viaNameOf u) now f hnf hne (followersOf u) g
          (hnd u (List.mem_cons_self u us)) (List.elem_iff.mp hcu)
      rw [ih _ (fun v hv => hnd v (List.mem_cons_of_mem u hv))]
      rw [hg']
      rw [@List.filter_cons_of_pos String (fun u => (followersOf u).contains f) u us hcu]
      cases hfl : us.filter (fun u => (followersOf u).contains f) with
      | nil =>
        dsimp only [entryWeight]
        rfl
      | cons b t =>
        rw [List.getLast?_cons_cons]
        cases hl2 : (b :: t).getLast? with
        | none => exact absurd hl2 (getLast?_cons_ne_none b t)
        | some v =>
          dsimp only [entryWeight]
          simp only [Option.some.injEq, GraphEntry.mk.injEq, List.length_cons]
          exact ⟨by omega, trivial, trivial⟩
    · have hg' : processFollowedAccount userId fl viaNameOf followersOf now g u f = g f := by
        unfold processFollowedAccount
        refine foldFollowers_not_mem userId fl (viaNameOf u) now f (followersOf u) g ?_
        intro hm
        exact absurd (List.elem_iff.mpr hm) (by simpa using hcu)
      rw [ih _ (fun v hv => hnd v (List.mem_cons_of_mem u hv))]
      rw [hg']
      rw [@List.filter_cons_of_neg String (fun u => (followersOf u).contains f) u us
        (by simpa using hcu)]

/-- C2 counterexample: in the crawl scenario (user `me` follows `A` then
`B`; `A` is followed by `{X, Y}`, `B` by `{Y, Z}`), the edge for `Y` has
weight 2 but carries via `B` — the account processed last — not the
first-seen via `A`: `getFollowersOfFollowers` overwrites `via` on every
later contribution. -/
theorem networkGraph_last_via_counterexample :
    buildNetworkGraph "me" ["A", "B"] (fun u => u) Examples.scenarioFollowersOf 0 "Y" =
      some { weight := 2, via := "B", timestamp := 0 } ∧ ("B" : String) ≠ "A" := by
  constructor
  · decide
  · decide

/-- C2 amended: for every follower outside the first-degree set and
distinct from the identity, and duplicate-free crawled follower lists,
the edge weight equals the number of processed followed accounts through
which the follower was reached, and the stored via is that of the last
contributing account in processing order (the first via is overwritten,
not kept). -/
theorem networkGraph_weight_last_via (userId : String) (followingList : List String)
    (viaNameOf : String → String) (followersOf : String → List String) (now : Int)
    (f : String)
    (hnodup : ∀ u ∈ processedFollowing followingList, (followersOf u).Nodup)
    (hnf : followingList.contains f = false) (hne : f ≠ userId) :
    buildNetworkGraph userId followingList viaNameOf followersOf now f =
      (contributorsFor followingList followersOf f).getLast?.map
        (fun v =>
          { weight := (contributorsFor followingList followersOf f).length
            via := viaNameOf v
            timestamp := now }) := by
  unfold buildNetworkGraph contributorsFor
  rw [foldProcessed_entry userId followingList viaNameOf followersOf now f hnf hne
    (processedFollowing followingList) (fun _ => none) hnodup]
  cases hlast : ((processedFollowing followingList).filter
      (fun u => (followersOf u).contains f)).getLast? with
  | none => rfl
  | some v =>
    dsimp only [entryWeight, Option.map]
    simp

/-- C2 amended, witness: in the crawl scenario the theorem instantiates
to the edge `Y` with weight 2 and via the last contributor `B`. -/
theorem networkGraph_weight_last_via_witness :
    buildNetworkGraph "me" ["A", "B"] (fun u => u) Examples.scenarioFollowersOf 0 "Y" =
      (contributorsFor ["A", "B"] Examples.scenarioFollowersOf "Y").getLast?.map
        (fun v =>
          { weight := (contributorsFor ["A", "B"] Examples.scenarioFollowersOf "Y").length
            via := v
            timestamp := 0 }) :=
  networkGraph_weight_last_via "me" ["A", "B"] (fun u => u) Examples.scenarioFollowersOf 0 "Y"
    (by decide) (by decide) (by decide)

end Bsky
